import Mathlib

/-!
Verification development for the ppl.cv CUDA erosion and border-expansion
operations (`erode.h`, `copymakeborder.h`).  The repository ships only the
public header declarations; the kernel bodies are modelled from the design
specification (border-index mapping, windowed minimum, margin copy), and the
declared defaults and supported border-type sets are taken from the headers.
Pixel components are embedded as integers; the maximum representable value of
the pixel type is an explicit parameter `maxT`.
-/

namespace PplCv

/-- Border policies, named after the `BorderType` enumerators listed in the
headers (`BORDER_TYPE_CONSTANT`, `BORDER_TYPE_REPLICATE`, `BORDER_TYPE_REFLECT`,
`BORDER_TYPE_WRAP`, `BORDER_TYPE_REFLECT_101`, `BORDER_TYPE_DEFAULT`). -/
inductive BorderType where
  | BORDER_TYPE_CONSTANT
  | BORDER_TYPE_REPLICATE
  | BORDER_TYPE_REFLECT
  | BORDER_TYPE_WRAP
  | BORDER_TYPE_REFLECT_101
  | BORDER_TYPE_DEFAULT
deriving DecidableEq, Repr

/-- Result of resolving a (possibly out-of-range) coordinate against one axis:
either a valid index into `[0, extent)`, or the instruction to use the
constant fill value. -/
inductive ResolvedCoordinate where
  | inBounds (index : Int)
  | useConstant
deriving DecidableEq, Repr

/-- `true` iff the resolved coordinate is `inBounds i` with `0 ≤ i < n`. -/
def ResolvedCoordinate.withinExtent (r : ResolvedCoordinate) (n : Int) : Bool :=
  match r with
  | .inBounds i => decide (0 ≤ i) && decide (i < n)
  | .useConstant => false

/-- Fold of coordinate `c` about the boundaries of `[0, n)` including the
boundary samples themselves, with period `2n` (spec, section 4.1, `REFLECT`). -/
def reflectIndex (c n : Int) : Int :=
  if ((c % (2 * n)) + 2 * n) % (2 * n) < n then ((c % (2 * n)) + 2 * n) % (2 * n)
  else 2 * n - 1 - ((c % (2 * n)) + 2 * n) % (2 * n)

/-- Fold of coordinate `c` about the boundaries of `[0, n)` excluding the
boundary samples, with period `2n - 2` (spec, section 4.1, `REFLECT_101`;
meaningful for `n ≥ 2`). -/
def reflect101Index (c n : Int) : Int :=
  if ((c % (2 * n - 2)) + (2 * n - 2)) % (2 * n - 2) < n then
    ((c % (2 * n - 2)) + (2 * n - 2)) % (2 * n - 2)
  else 2 * n - 2 - ((c % (2 * n - 2)) + (2 * n - 2)) % (2 * n - 2)

/-- Modelled from the spec: the `BorderIndexMapper` kernel body is not present
under `src/` (only the header declarations are), so the per-axis coordinate
resolution is taken from the specification, section 4.1: `CONSTANT` yields
`useConstant` outside `[0, n)`, `REPLICATE` clamps, `REFLECT` folds with
period `2n` including the boundary sample, `REFLECT_101` folds with period
`2n - 2` excluding the boundary sample (meaningful for `n ≥ 2`), `WRAP` takes
the true modulo `((c % n) + n) % n`.  `BORDER_TYPE_DEFAULT` is the
`REFLECT_101` behaviour. -/
def borderMap (c : Int) (n : Int) (policy : BorderType) : ResolvedCoordinate :=
  match policy with
  | .BORDER_TYPE_CONSTANT =>
      if c < 0 ∨ n ≤ c then .useConstant else .inBounds c
  | .BORDER_TYPE_REPLICATE =>
      .inBounds (max 0 (min c (n - 1)))
  | .BORDER_TYPE_REFLECT =>
      .inBounds (reflectIndex c n)
  | .BORDER_TYPE_WRAP =>
      .inBounds (((c % n) + n) % n)
  | .BORDER_TYPE_REFLECT_101 =>
      .inBounds (reflect101Index c n)
  | .BORDER_TYPE_DEFAULT =>
      .inBounds (reflect101Index c n)

/-- Bounds for the `REFLECT` fold: the result lies in `[0, n)` for `n ≥ 1`. -/
lemma reflectIndex_bounds (c n : Int) (hn : 1 ≤ n) :
    0 ≤ reflectIndex c n ∧ reflectIndex c n < n := by
  have hm0 : 0 ≤ ((c % (2 * n)) + 2 * n) % (2 * n) := Int.emod_nonneg _ (by omega)
  have hm1 : ((c % (2 * n)) + 2 * n) % (2 * n) < 2 * n :=
    Int.emod_lt_of_pos _ (by omega)
  unfold reflectIndex
  rcases lt_or_le (((c % (2 * n)) + 2 * n) % (2 * n)) n with h | h
  · rw [if_pos h]; omega
  · rw [if_neg (not_lt.mpr h)]; omega

/-- Bounds for the `REFLECT_101` fold: the result lies in `[0, n)` for
`n ≥ 2`. -/
lemma reflect101Index_bounds (c n : Int) (hn : 2 ≤ n) :
    0 ≤ reflect101Index c n ∧ reflect101Index c n < n := by
  have hm0 : 0 ≤ ((c % (2 * n - 2)) + (2 * n - 2)) % (2 * n - 2) :=
    Int.emod_nonneg _ (by omega)
  have hm1 : ((c % (2 * n - 2)) + (2 * n - 2)) % (2 * n - 2) < 2 * n - 2 :=
    Int.emod_lt_of_pos _ (by omega)
  unfold reflect101Index
  rcases lt_or_le (((c % (2 * n - 2)) + (2 * n - 2)) % (2 * n - 2)) n with h | h
  · rw [if_pos h]; omega
  · rw [if_neg (not_lt.mpr h)]; omega

/-- The `REFLECT` fold is the identity on `[0, n)`. -/
lemma reflectIndex_of_mem (c n : Int) (h0 : 0 ≤ c) (hn : c < n) :
    reflectIndex c n = c := by
  have h1 : c % (2 * n) = c := Int.emod_eq_of_lt h0 (by omega)
  have h2 : (c + 2 * n) % (2 * n) = c % (2 * n) := by
    have := Int.add_mul_emod_self_left (a := c) (b := 2 * n) (c := 1)
    simpa using this
  unfold reflectIndex
  rw [h1, h2, h1, if_pos hn]

/-- The `REFLECT_101` fold is the identity on `[0, n)` for every `n ≥ 1`
(for `n = 1` the only in-range coordinate is 0 and the degenerate period is
handled by `emod` by zero). -/
lemma reflect101Index_of_mem (c n : Int) (h0 : 0 ≤ c) (hn : c < n) :
    reflect101Index c n = c := by
  have hn1 : 1 ≤ n := lt_of_le_of_lt h0 hn
  rcases eq_or_lt_of_le hn1 with h | h
  · have hc : c = 0 := by omega
    subst hc
    rw [← h]
    rfl
  · have h1 : c % (2 * n - 2) = c := Int.emod_eq_of_lt h0 (by omega)
    have h2 : (c + (2 * n - 2)) % (2 * n - 2) = c % (2 * n - 2) := by
      have := Int.add_mul_emod_self_left (a := c) (b := 2 * n - 2) (c := 1)
      simpa using this
    unfold reflect101Index
    rw [h1, h2, h1, if_pos hn]

/-- An in-range coordinate is resolved to itself by every border policy. -/
lemma borderMap_of_mem (c n : Int) (h0 : 0 ≤ c) (hn : c < n) (p : BorderType) :
    borderMap c n p = .inBounds c := by
  cases p with
  | BORDER_TYPE_CONSTANT =>
      simp only [borderMap]
      rw [if_neg]
      omega
  | BORDER_TYPE_REPLICATE =>
      simp only [borderMap, ResolvedCoordinate.inBounds.injEq]
      omega
  | BORDER_TYPE_REFLECT =>
      simp only [borderMap, reflectIndex_of_mem c n h0 hn]
  | BORDER_TYPE_WRAP =>
      simp only [borderMap, ResolvedCoordinate.inBounds.injEq]
      have h1 : c % n = c := Int.emod_eq_of_lt h0 hn
      have h2 : (c + n) % n = c % n := by
        have := Int.add_mul_emod_self_left (a := c) (b := n) (c := 1)
        simpa using this
      rw [h1, h2, h1]
  | BORDER_TYPE_REFLECT_101 =>
      simp only [borderMap, reflect101Index_of_mem c n h0 hn]
  | BORDER_TYPE_DEFAULT =>
      simp only [borderMap, reflect101Index_of_mem c n h0 hn]

/-- C3: for extent `n ≥ 1` (`n ≥ 2` for `REFLECT_101`) and every integer
coordinate, the mapper under `REPLICATE`, `REFLECT`, `REFLECT_101` and `WRAP`
returns `inBounds i` with `0 ≤ i < n` (never `useConstant`), and `WRAP`
returns exactly the true modulo `((c % n) + n) % n`. -/
theorem borderMap_nonconstant_safe (c n : Int) (p : BorderType) (hn : 1 ≤ n)
    (hp : p = .BORDER_TYPE_REPLICATE ∨ p = .BORDER_TYPE_REFLECT ∨
          p = .BORDER_TYPE_REFLECT_101 ∨ p = .BORDER_TYPE_WRAP)
    (h101 : p = .BORDER_TYPE_REFLECT_101 → 2 ≤ n) :
    (borderMap c n p).withinExtent n = true ∧
    borderMap c n .BORDER_TYPE_WRAP = .inBounds (((c % n) + n) % n) := by
  refine ⟨?_, rfl⟩
  have hn0 : n ≠ 0 := by omega
  rcases hp with hp | hp | hp | hp
  · subst hp
    simp only [borderMap, ResolvedCoordinate.withinExtent, Bool.and_eq_true,
      decide_eq_true_eq]
    omega
  · subst hp
    have hb := reflectIndex_bounds c n hn
    simp only [borderMap, ResolvedCoordinate.withinExtent, Bool.and_eq_true,
      decide_eq_true_eq]
    omega
  · subst hp
    have hb := reflect101Index_bounds c n (h101 rfl)
    simp only [borderMap, ResolvedCoordinate.withinExtent, Bool.and_eq_true,
      decide_eq_true_eq]
    omega
  · subst hp
    have hm0 : 0 ≤ ((c % n) + n) % n := Int.emod_nonneg _ hn0
    have hm1 : ((c % n) + n) % n < n := Int.emod_lt_of_pos _ (by omega)
    simp only [borderMap, ResolvedCoordinate.withinExtent, Bool.and_eq_true,
      decide_eq_true_eq]
    omega

/-- Witness for C3 at `c = -5`, `n = 3`, policy `WRAP`. -/
theorem borderMap_nonconstant_safe_witness :
    (borderMap (-5) 3 .BORDER_TYPE_WRAP).withinExtent 3 = true ∧
    borderMap (-5) 3 .BORDER_TYPE_WRAP = .inBounds ((((-5) % 3) + 3) % 3) :=
  borderMap_nonconstant_safe (-5) 3 .BORDER_TYPE_WRAP (by decide)
    (Or.inr (Or.inr (Or.inr rfl))) (by intro h; cases h)

/-- Whether the structuring-element tap at `(dy, dx)` is on.  The mask is the
flat byte array `kernel` of the headers, indexed row-major by
`dy * kernelx_len + dx`; a null mask (`none`) means every position is on. -/
def kernelOn (kernel : Option (Nat → Bool)) (kernelx_len : Nat) (dy dx : Nat) : Bool :=
  match kernel with
  | none => true
  | some k => k (dy * kernelx_len + dx)

/-- All `(dy, dx)` offsets of a `kernely_len x kernelx_len` footprint, in
row-major order. -/
def tapList (kernely_len kernelx_len : Nat) : List (Nat × Nat) :=
  (List.range kernely_len).flatMap fun dy =>
    (List.range kernelx_len).map fun dx => (dy, dx)

/-- Modelled from the spec: the erosion kernel body is not present under
`src/` (only the `Erode` declaration is).  Value of one structuring-element
tap for output pixel `(y, x)`, channel `ch`: the coordinate
`(y + ky0 + dy, x + kx0 + dx)` with the anchor offsets
`ky0 = -floor(kernely_len / 2)`, `kx0 = -floor(kernelx_len / 2)` is resolved
per axis through `borderMap`; if both axes are in bounds the pixel
`inData[row * inStride + col * channels + ch]` is fetched, otherwise the
constant `border_value` is used (spec, section 4.2, step 3). -/
def erodeTap (height width inStride : Int) (channels : Nat) (inData : Int → Int)
    (kernelx_len kernely_len : Nat) (border_type : BorderType)
    (border_value : Int) (y x : Int) (ch : Nat) (dy dx : Nat) : Int :=
  match borderMap (y + -((kernely_len : Int) / 2) + dy) height border_type,
        borderMap (x + -((kernelx_len : Int) / 2) + dx) width border_type with
  | .inBounds row, .inBounds col => inData (row * inStride + col * channels + ch)
  | _, _ => border_value

/-- Modelled from the spec: per-pixel erosion result (spec, section 4.2).
The accumulator starts at `maxT`, the maximum representable value of the
pixel type, and takes the minimum over every on tap of the structuring
element. -/
def erodeAt (height width inStride : Int) (channels : Nat) (inData : Int → Int)
    (kernelx_len kernely_len : Nat) (kernel : Option (Nat → Bool))
    (border_type : BorderType) (border_value maxT : Int)
    (y x : Int) (ch : Nat) : Int :=
  (tapList kernely_len kernelx_len).foldl
    (fun acc t =>
      if kernelOn kernel kernelx_len t.1 t.2 then
        min acc (erodeTap height width inStride channels inData
          kernelx_len kernely_len border_type border_value y x ch t.1 t.2)
      else acc)
    maxT

/-- Plain minimum over the full `kernely_len x kernelx_len` window (every tap
participates), accumulator starting at `maxT`; this is the spec's
"rectangular min filter". -/
def windowMin (height width inStride : Int) (channels : Nat) (inData : Int → Int)
    (kernelx_len kernely_len : Nat) (border_type : BorderType)
    (border_value maxT : Int) (y x : Int) (ch : Nat) : Int :=
  (tapList kernely_len kernelx_len).foldl
    (fun acc t =>
      min acc (erodeTap height width inStride channels inData
        kernelx_len kernely_len border_type border_value y x ch t.1 t.2))
    maxT

/-- Execution status, abstracting `ppl::common::RetCode`. -/
inductive RetCode where
  | success
  | invalidArgument
deriving DecidableEq, Repr

/-- Modelled from the spec: shape validation of `Erode` (spec, sections 4.2
and 7 -- positive extents and kernel lengths, strides at least
`width * channels`, non-null data pointers), checked synchronously before any
work is enqueued. -/
def erodeValid (channels : Nat) (height width inStride kernelx_len kernely_len
    outStride : Int) (inDataNull outDataNull : Bool) : Bool :=
  decide (0 < height) && decide (0 < width) &&
  decide (0 < kernelx_len) && decide (0 < kernely_len) &&
  decide (width * channels ≤ inStride) &&
  decide (width * channels ≤ outStride) &&
  !inDataNull && !outDataNull

/-- Modelled from the spec: the `Erode` entry point (header declaration in
`erode.h`, body per spec section 4.2).  Null pointers are modelled by the
`inDataNull` / `outDataNull` flags.  On valid arguments it returns success
together with the function giving the value written to output position
`(y, x, ch)`; on a violated precondition it returns `invalidArgument`
synchronously and produces no output. -/
def Erode (channels : Nat) (height width inStride : Int) (inData : Int → Int)
    (inDataNull : Bool) (kernelx_len kernely_len : Int)
    (kernel : Option (Nat → Bool)) (outStride : Int) (outDataNull : Bool)
    (border_type : BorderType) (border_value maxT : Int) :
    Except RetCode (Int → Int → Nat → Int) :=
  if erodeValid channels height width inStride kernelx_len kernely_len
      outStride inDataNull outDataNull then
    .ok (fun y x ch => erodeAt height width inStride channels inData
      kernelx_len.toNat kernely_len.toNat kernel border_type border_value maxT
      y x ch)
  else
    .error .invalidArgument

/-- Modelled from the spec: per-pixel border expansion (spec, section 4.3).
Output pixel `(oy, ox)` reads source coordinate `(oy - top, ox - left)`,
resolved per axis through `borderMap`; if both axes are in bounds the source
pixel is copied, otherwise `border_value` is written. -/
def expandAt (height width inStride : Int) (channels : Nat) (inData : Int → Int)
    (top left : Int) (border_type : BorderType) (border_value : Int)
    (oy ox : Int) (ch : Nat) : Int :=
  match borderMap (oy - top) height border_type,
        borderMap (ox - left) width border_type with
  | .inBounds row, .inBounds col => inData (row * inStride + col * channels + ch)
  | _, _ => border_value

/-- Modelled from the spec: shape validation of `CopyMakeBorder` (spec,
sections 4.3 and 7): positive extents, non-negative margins, input stride at
least `width * channels`, output stride at least
`(width + left + right) * channels`, non-null data pointers. -/
def cmbValid (channels : Nat) (height width inStride outStride top bottom left
    right : Int) (inDataNull outDataNull : Bool) : Bool :=
  decide (0 < height) && decide (0 < width) &&
  decide (0 ≤ top) && decide (0 ≤ bottom) &&
  decide (0 ≤ left) && decide (0 ≤ right) &&
  decide (width * channels ≤ inStride) &&
  decide ((width + left + right) * channels ≤ outStride) &&
  !inDataNull && !outDataNull

/-- Modelled from the spec: the `CopyMakeBorder` (`Expand`) entry point
(header declaration in `copymakeborder.h`, body per spec section 4.3).  On
valid arguments it returns success together with the function giving the
value written to output position `(oy, ox, ch)` of the
`(height + top + bottom) x (width + left + right)` canvas; on a violated
precondition it returns `invalidArgument` synchronously and produces no
output. -/
def CopyMakeBorder (channels : Nat) (height width inStride : Int)
    (inData : Int → Int) (inDataNull : Bool) (outStride : Int)
    (outDataNull : Bool) (top bottom left right : Int)
    (border_type : BorderType) (border_value : Int) :
    Except RetCode (Int → Int → Nat → Int) :=
  if cmbValid channels height width inStride outStride top bottom left right
      inDataNull outDataNull then
    .ok (fun oy ox ch => expandAt height width inStride channels inData
      top left border_type border_value oy ox ch)
  else
    .error .invalidArgument

/-- Exact integer value of `FLT_MAX`, the largest finite single-precision
float: `(2 - 2^-23) * 2^127`. -/
def FLT_MAX : Int := 2 ^ 128 - 2 ^ 104

/-- The border policies `erode.h` documents as supported, in the header's
order: `BORDER_TYPE_CONSTANT`, `BORDER_TYPE_REPLICATE`, `BORDER_TYPE_REFLECT`,
`BORDER_TYPE_WRAP` and `BORDER_TYPE_REFLECT_101`. -/
def erodeSupportedBorderTypes : List BorderType :=
  [.BORDER_TYPE_CONSTANT, .BORDER_TYPE_REPLICATE, .BORDER_TYPE_REFLECT,
   .BORDER_TYPE_WRAP, .BORDER_TYPE_REFLECT_101]

/-- The border policies `copymakeborder.h` documents as supported, in the
header's order: the five of `erode.h` plus `BORDER_TYPE_DEFAULT`. -/
def copyMakeBorderSupportedBorderTypes : List BorderType :=
  [.BORDER_TYPE_CONSTANT, .BORDER_TYPE_REPLICATE, .BORDER_TYPE_REFLECT,
   .BORDER_TYPE_WRAP, .BORDER_TYPE_REFLECT_101, .BORDER_TYPE_DEFAULT]

/-- Default border policy of `Erode` (declaration in `erode.h`:
`border_type = BORDER_TYPE_CONSTANT`). -/
def erodeDefaultBorderType : BorderType := .BORDER_TYPE_CONSTANT

/-- Default border value of `Erode` (declaration in `erode.h`:
`border_value = FLT_MAX`). -/
def erodeDefaultBorderValue : Int := FLT_MAX

/-- Default border value of `CopyMakeBorder` (declaration in
`copymakeborder.h`: `border_value = 0`); its `border_type` parameter has no
default. -/
def copyMakeBorderDefaultBorderValue : Int := 0

/-- C4: for extent 4, coordinate −1 maps to 0 under `REFLECT`, 1 under
`REFLECT_101`, 0 under `REPLICATE`, 3 under `WRAP`, and `useConstant` under
`CONSTANT`. -/
theorem borderMap_extent_four_cases :
    borderMap (-1) 4 .BORDER_TYPE_REFLECT = .inBounds 0 ∧
    borderMap (-1) 4 .BORDER_TYPE_REFLECT_101 = .inBounds 1 ∧
    borderMap (-1) 4 .BORDER_TYPE_REPLICATE = .inBounds 0 ∧
    borderMap (-1) 4 .BORDER_TYPE_WRAP = .inBounds 3 ∧
    borderMap (-1) 4 .BORDER_TYPE_CONSTANT = .useConstant := by
  refine ⟨?_, ?_, ?_, ?_, ?_⟩ <;> decide

/-- C10: the two entry points do not accept the same set of border policies:
`copymakeborder.h` documents the five policies of `erode.h` plus
`BORDER_TYPE_DEFAULT`, `Erode` defaults `border_value` to `FLT_MAX` while
`CopyMakeBorder` defaults it to 0. -/
theorem supported_border_sets_differ :
    copyMakeBorderSupportedBorderTypes =
      erodeSupportedBorderTypes ++ [BorderType.BORDER_TYPE_DEFAULT] ∧
    BorderType.BORDER_TYPE_DEFAULT ∈ copyMakeBorderSupportedBorderTypes ∧
    BorderType.BORDER_TYPE_DEFAULT ∉ erodeSupportedBorderTypes ∧
    erodeDefaultBorderValue = FLT_MAX ∧
    copyMakeBorderDefaultBorderValue = 0 :=
  ⟨rfl, by decide, by decide, rfl, rfl⟩

/-- C8: when a shape precondition is violated (non-positive extent or kernel
length, a stride smaller than the logical row width, or a null data pointer),
`Erode` and `CopyMakeBorder` return `invalidArgument` synchronously and
produce no output. -/
theorem invalid_arguments_rejected (channels : Nat)
    (height width inStride kernelx_len kernely_len outStride
      top bottom left right : Int)
    (inData : Int → Int) (inDataNull outDataNull : Bool)
    (kernel : Option (Nat → Bool)) (bt : BorderType) (bv maxT : Int) :
    (height ≤ 0 ∨ width ≤ 0 ∨ kernelx_len ≤ 0 ∨ kernely_len ≤ 0 ∨
        inStride < width * channels ∨ outStride < width * channels ∨
        inDataNull = true ∨ outDataNull = true →
      Erode channels height width inStride inData inDataNull kernelx_len
          kernely_len kernel outStride outDataNull bt bv maxT =
        .error .invalidArgument) ∧
    (height ≤ 0 ∨ width ≤ 0 ∨ inStride < width * channels ∨
        outStride < (width + left + right) * channels ∨
        inDataNull = true ∨ outDataNull = true →
      CopyMakeBorder channels height width inStride inData inDataNull outStride
          outDataNull top bottom left right bt bv =
        .error .invalidArgument) := by
  constructor
  · intro h
    cases hv : erodeValid channels height width inStride kernelx_len
        kernely_len outStride inDataNull outDataNull with
    | false => simp [Erode, hv]
    | true =>
      exfalso
      simp only [erodeValid, Bool.and_eq_true, decide_eq_true_eq,
        Bool.not_eq_true'] at hv
      obtain ⟨⟨⟨⟨⟨⟨⟨h1, h2⟩, h3⟩, h4⟩, h5⟩, h6⟩, h7⟩, h8⟩ := hv
      rcases h with h | h | h | h | h | h | h | h
      · omega
      · omega
      · omega
      · omega
      · omega
      · omega
      · rw [h] at h7; cases h7
      · rw [h] at h8; cases h8
  · intro h
    cases hv : cmbValid channels height width inStride outStride top bottom
        left right inDataNull outDataNull with
    | false => simp [CopyMakeBorder, hv]
    | true =>
      exfalso
      simp only [cmbValid, Bool.and_eq_true, decide_eq_true_eq,
        Bool.not_eq_true'] at hv
      obtain ⟨⟨⟨⟨⟨⟨⟨⟨⟨h1, h2⟩, h3⟩, h4⟩, h5⟩, h6⟩, h7⟩, h8⟩, h9⟩, h10⟩ := hv
      rcases h with h | h | h | h | h | h
      · omega
      · omega
      · omega
      · omega
      · rw [h] at h9; cases h9
      · rw [h] at h10; cases h10

/-- Witness for C8: `height = 0` is rejected by both entry points. -/
theorem invalid_arguments_rejected_witness :
    Erode 1 0 5 5 (fun _ => (0 : Int)) false 3 3 none 5 false
        .BORDER_TYPE_CONSTANT 0 255 = .error .invalidArgument ∧
    CopyMakeBorder 1 0 5 5 (fun _ => (0 : Int)) false 5 false 1 1 1 1
        .BORDER_TYPE_CONSTANT 0 = .error .invalidArgument :=
  ⟨(invalid_arguments_rejected 1 0 5 5 3 3 5 1 1 1 1 (fun _ => (0 : Int))
      false false none .BORDER_TYPE_CONSTANT 0 255).1 (Or.inl (by norm_num)),
   (invalid_arguments_rejected 1 0 5 5 3 3 5 1 1 1 1 (fun _ => (0 : Int))
      false false none .BORDER_TYPE_CONSTANT 0 255).2 (Or.inl (by norm_num))⟩

/-- C2: for every input image, non-negative margins and border policy, the
interior sub-rectangle of a successful `CopyMakeBorder` output reproduces the
input exactly: output position `(top + y, left + x)` carries input pixel
`(y, x)` for every in-range `(y, x)` and every channel. -/
theorem expand_roundtrip (channels : Nat)
    (height width inStride outStride top bottom left right : Int)
    (inData : Int → Int) (inDataNull outDataNull : Bool)
    (bt : BorderType) (bv : Int) (f : Int → Int → Nat → Int)
    (hok : CopyMakeBorder channels height width inStride inData inDataNull
      outStride outDataNull top bottom left right bt bv = .ok f)
    (y x : Int) (hy0 : 0 ≤ y) (hy1 : y < height) (hx0 : 0 ≤ x) (hx1 : x < width)
    (ch : Nat) :
    f (top + y) (left + x) ch = inData (y * inStride + x * channels + ch) := by
  unfold CopyMakeBorder at hok
  split at hok
  · cases hok
    show expandAt height width inStride channels inData top left bt bv
      (top + y) (left + x) ch = _
    unfold expandAt
    have e1 : top + y - top = y := by ring
    have e2 : left + x - left = x := by ring
    rw [e1, e2, borderMap_of_mem y height hy0 hy1 bt,
      borderMap_of_mem x width hx0 hx1 bt]
  · cases hok

/-- Witness for C2: a 2x2 single-channel image expanded by one pixel on every
side under `REFLECT`; interior position `(1 + 1, 1 + 1)` carries input pixel
`(1, 1)`, which is element 3 of the identity-valued buffer. -/
theorem expand_roundtrip_witness :
    expandAt 2 2 2 1 (fun i => i) 1 1 .BORDER_TYPE_REFLECT 0 (1 + 1) (1 + 1) 0
      = 3 :=
  expand_roundtrip 1 2 2 2 4 1 1 1 1 (fun i => i) false false
    .BORDER_TYPE_REFLECT 0
    (fun oy ox ch => expandAt 2 2 2 1 (fun i => i) 1 1 .BORDER_TYPE_REFLECT 0
      oy ox ch)
    rfl 1 1 (by norm_num) (by norm_num) (by norm_num) (by norm_num) 0

/-- Characterization of footprint membership: `(dy, dx)` is listed exactly
when it lies inside the `kernely_len x kernelx_len` rectangle. -/
lemma mem_tapList (ky kx : Nat) (t : Nat × Nat) :
    t ∈ tapList ky kx ↔ t.1 < ky ∧ t.2 < kx := by
  cases t with
  | mk dy dx =>
    simp only [tapList, List.mem_flatMap, List.mem_map, List.mem_range,
      Prod.mk.injEq]
    constructor
    · rintro ⟨a, ha, b, hb, hba, hbb⟩
      subst hba
      subst hbb
      exact ⟨ha, hb⟩
    · rintro ⟨ha, hb⟩
      exact ⟨dy, ha, dx, hb, rfl, rfl⟩

/-- A guarded minimum fold whose guard holds on every list element equals the
unguarded minimum fold. -/
lemma foldl_ite_all_on (l : List (Nat × Nat)) (p : Nat × Nat → Bool)
    (g : Nat × Nat → Int) (hp : ∀ t ∈ l, p t = true) (a : Int) :
    l.foldl (fun acc t => if p t then min acc (g t) else acc) a =
    l.foldl (fun acc t => min acc (g t)) a := by
  induction l generalizing a with
  | nil => rfl
  | cons hd tl ih =>
    simp only [List.foldl_cons]
    rw [if_pos (hp hd (List.mem_cons_self hd tl))]
    exact ih (fun t ht => hp t (List.mem_cons_of_mem hd ht)) _

/-- C5: a null structuring element is interpreted as the full rectangular
all-on element: `Erode` with a null mask and with an explicit all-on mask
coincide, and the per-pixel result is the plain minimum over the full
`kernely_len x kernelx_len` window. -/
theorem erode_null_kernel_rect_min (channels : Nat)
    (height width inStride kernelx_len kernely_len outStride : Int)
    (inData : Int → Int) (inDataNull outDataNull : Bool)
    (bt : BorderType) (bv maxT : Int) :
    Erode channels height width inStride inData inDataNull kernelx_len
        kernely_len none outStride outDataNull bt bv maxT =
      Erode channels height width inStride inData inDataNull kernelx_len
        kernely_len (some fun _ => true) outStride outDataNull bt bv maxT ∧
    ∀ y x ch,
      erodeAt height width inStride channels inData kernelx_len.toNat
          kernely_len.toNat none bt bv maxT y x ch =
        windowMin height width inStride channels inData kernelx_len.toNat
          kernely_len.toNat bt bv maxT y x ch := by
  have hnone : ∀ y x ch,
      erodeAt height width inStride channels inData kernelx_len.toNat
          kernely_len.toNat none bt bv maxT y x ch =
        windowMin height width inStride channels inData kernelx_len.toNat
          kernely_len.toNat bt bv maxT y x ch := by
    intro y x ch
    exact foldl_ite_all_on _ _ _ (fun t _ => rfl) _
  have hallon : ∀ y x ch,
      erodeAt height width inStride channels inData kernelx_len.toNat
          kernely_len.toNat (some fun _ => true) bt bv maxT y x ch =
        windowMin height width inStride channels inData kernelx_len.toNat
          kernely_len.toNat bt bv maxT y x ch := by
    intro y x ch
    exact foldl_ite_all_on _ _ _ (fun t _ => rfl) _
  refine ⟨?_, hnone⟩
  unfold Erode
  split
  · exact congrArg Except.ok (funext fun y => funext fun x => funext fun ch =>
      (hnone y x ch).trans (hallon y x ch).symm)
  · rfl

/-- A guarded minimum fold is antitone in the guard: enabling more taps can
only lower (or keep) the result, starting from a lower-or-equal
accumulator. -/
lemma foldl_min_mono (l : List (Nat × Nat)) (p q : Nat × Nat → Bool)
    (g : Nat × Nat → Int) (hpq : ∀ t ∈ l, p t = true → q t = true)
    (a b : Int) (hab : b ≤ a) :
    l.foldl (fun acc t => if q t then min acc (g t) else acc) b ≤
    l.foldl (fun acc t => if p t then min acc (g t) else acc) a := by
  induction l generalizing a b with
  | nil => simpa using hab
  | cons hd tl ih =>
    simp only [List.foldl_cons]
    have hstep : (if q hd then min b (g hd) else b) ≤
        (if p hd then min a (g hd) else a) := by
      by_cases hp : p hd = true
      · rw [if_pos hp, if_pos (hpq hd (List.mem_cons_self hd tl) hp)]
        exact min_le_min hab (le_refl _)
      · rw [if_neg hp]
        by_cases hq : q hd = true
        · rw [if_pos hq]
          exact le_trans (min_le_left _ _) hab
        · rw [if_neg hq]
          exact hab
    exact ih (fun t ht => hpq t (List.mem_cons_of_mem hd ht)) _ _ hstep

/-- C6: erosion is antitone in the structuring element: if every on tap of
`k1` is an on tap of `k2`, the per-pixel erosion with `k2` is everywhere less
than or equal to the one with `k1`. -/
theorem erode_monotone_in_kernel (channels : Nat)
    (height width inStride : Int) (inData : Int → Int)
    (kernelx_len kernely_len : Nat) (k1 k2 : Option (Nat → Bool))
    (bt : BorderType) (bv maxT : Int)
    (hsub : ∀ dy dx, dy < kernely_len → dx < kernelx_len →
      kernelOn k1 kernelx_len dy dx = true →
      kernelOn k2 kernelx_len dy dx = true)
    (y x : Int) (ch : Nat) :
    erodeAt height width inStride channels inData kernelx_len kernely_len k2
        bt bv maxT y x ch ≤
      erodeAt height width inStride channels inData kernelx_len kernely_len k1
        bt bv maxT y x ch := by
  unfold erodeAt
  refine foldl_min_mono _ _ _ _ ?_ _ _ (le_refl _)
  intro t ht h1
  obtain ⟨hy, hx⟩ := (mem_tapList kernely_len kernelx_len t).mp ht
  exact hsub t.1 t.2 hy hx h1

/-- Witness for C6: a single-tap mask against the all-on (null) mask on a
2x2 identity-valued image. -/
theorem erode_monotone_in_kernel_witness :
    erodeAt 2 2 2 1 (fun i => i) 3 3 none .BORDER_TYPE_REPLICATE 0 255 0 0 0 ≤
    erodeAt 2 2 2 1 (fun i => i) 3 3 (some fun i => decide (i = 4))
      .BORDER_TYPE_REPLICATE 0 255 0 0 0 :=
  erode_monotone_in_kernel 1 2 2 2 (fun i => i) 3 3
    (some fun i => decide (i = 4)) none .BORDER_TYPE_REPLICATE 0 255
    (fun _ _ _ _ _ => rfl) 0 0 0

/-- C7: on a 5x5 single-channel 8-bit image eroded with a 3x3 all-on element
under `CONSTANT` border with value 0, the output at corner `(0, 0)` is the
minimum of the four in-bounds window pixels and the constant 0 contributed by
the out-of-bounds taps. -/
theorem erode_corner_constant_scenario (inData : Int → Int) :
    Erode 1 5 5 5 inData false 3 3 (some fun _ => true) 5 false
        .BORDER_TYPE_CONSTANT 0 255 =
      .ok (fun y x ch => erodeAt 5 5 5 1 inData 3 3 (some fun _ => true)
        .BORDER_TYPE_CONSTANT 0 255 y x ch) ∧
    erodeAt 5 5 5 1 inData 3 3 (some fun _ => true) .BORDER_TYPE_CONSTANT 0 255
        0 0 0 =
      min (min (min (min (inData 0) (inData 1)) (inData 5)) (inData 6)) 0 := by
  refine ⟨rfl, ?_⟩
  norm_num [erodeAt, tapList, erodeTap, kernelOn, borderMap, List.range_succ]
  omega

/-- The footprint list is duplicate-free. -/
lemma tapList_nodup (ky kx : Nat) : (tapList ky kx).Nodup :=
  List.Nodup.product (List.nodup_range ky) (List.nodup_range kx)

/-- A guarded minimum fold equals the unguarded fold over the filtered
list. -/
lemma foldl_ite_eq_filter (l : List (Nat × Nat)) (p : Nat × Nat → Bool)
    (g : Nat × Nat → Int) (a : Int) :
    l.foldl (fun acc t => if p t then min acc (g t) else acc) a =
    (l.filter p).foldl (fun acc t => min acc (g t)) a := by
  induction l generalizing a with
  | nil => rfl
  | cons hd tl ih =>
    by_cases hp : p hd = true
    · simp only [List.filter_cons, hp, if_pos, List.foldl_cons, ih]
    · simp only [List.filter_cons, hp, Bool.false_eq_true, if_false,
        List.foldl_cons, ih]

/-- Shifting one minimum operand out of the accumulator of a minimum fold. -/
lemma foldl_min_comm_shift (l : List (Nat × Nat)) (g : Nat × Nat → Int)
    (a b : Int) :
    l.foldl (fun acc t => min acc (g t)) (min a b) =
    min b (l.foldl (fun acc t => min acc (g t)) a) := by
  induction l generalizing a with
  | nil => simp [min_comm]
  | cons hd tl ih =>
    simp only [List.foldl_cons]
    rw [min_right_comm a b (g hd), ih]

/-- A left minimum fold over a duplicate-free list equals the `Finset.fold`
of `min` over the list's underlying finite set. -/
lemma foldl_min_eq_fold_toFinset (l : List (Nat × Nat)) (hl : l.Nodup)
    (g : Nat × Nat → Int) (a : Int) :
    l.foldl (fun acc t => min acc (g t)) a =
    Finset.fold min a g l.toFinset := by
  induction l generalizing a with
  | nil => simp
  | cons hd tl ih =>
    obtain ⟨hhd, htl⟩ := List.nodup_cons.mp hl
    rw [List.toFinset_cons, Finset.fold_insert (by simpa using hhd)]
    simp only [List.foldl_cons]
    rw [foldl_min_comm_shift tl g a (g hd), ih htl a]

/-- The set of on positions of the structuring element inside the
`kernely_len x kernelx_len` footprint. -/
def onTaps (kernelx_len kernely_len : Nat) (kernel : Option (Nat → Bool)) :
    Finset (Nat × Nat) :=
  (Finset.range kernely_len ×ˢ Finset.range kernelx_len).filter
    (fun t => kernelOn kernel kernelx_len t.1 t.2 = true)

/-- The spec's result guarantee, stated directly in its words: the minimum,
over all on positions of the structuring element, of the border-resolved tap
value, with the accumulator starting at `maxT`, the maximum representable
value of the pixel type. -/
def erodeSpecMin (height width inStride : Int) (channels : Nat)
    (inData : Int → Int) (kernelx_len kernely_len : Nat)
    (kernel : Option (Nat → Bool)) (border_type : BorderType)
    (border_value maxT : Int) (y x : Int) (ch : Nat) : Int :=
  Finset.fold min maxT
    (fun t => erodeTap height width inStride channels inData kernelx_len
      kernely_len border_type border_value y x ch t.1 t.2)
    (onTaps kernelx_len kernely_len kernel)

/-- The per-pixel erosion fold computes exactly the spec's minimum over the
on-tap set. -/
lemma erodeAt_eq_erodeSpecMin (height width inStride : Int) (channels : Nat)
    (inData : Int → Int) (kernelx_len kernely_len : Nat)
    (kernel : Option (Nat → Bool)) (border_type : BorderType)
    (border_value maxT : Int) (y x : Int) (ch : Nat) :
    erodeAt height width inStride channels inData kernelx_len kernely_len
        kernel border_type border_value maxT y x ch =
      erodeSpecMin height width inStride channels inData kernelx_len
        kernely_len kernel border_type border_value maxT y x ch := by
  unfold erodeAt erodeSpecMin
  rw [foldl_ite_eq_filter]
  rw [foldl_min_eq_fold_toFinset _
    ((tapList_nodup kernely_len kernelx_len).filter _) _ _]
  congr 1
  ext t
  simp only [List.mem_toFinset, List.mem_filter, mem_tapList, onTaps,
    Finset.mem_filter, Finset.mem_product, Finset.mem_range]

/-- C1: a successful `Erode` call writes to each output position `(y, x, ch)`
exactly the minimum, over all on positions of the structuring element
anchored at its center, of the border-resolved tap value (the in-bounds pixel
at `row * inStride + col * channels + ch` when both axes resolve in bounds,
`border_value` otherwise), the accumulator starting at the maximum
representable value `maxT`. -/
theorem erode_writes_min_over_on_taps (channels : Nat)
    (height width inStride kernelx_len kernely_len outStride : Int)
    (inData : Int → Int) (inDataNull outDataNull : Bool)
    (kernel : Option (Nat → Bool)) (bt : BorderType) (bv maxT : Int)
    (f : Int → Int → Nat → Int)
    (hok : Erode channels height width inStride inData inDataNull kernelx_len
      kernely_len kernel outStride outDataNull bt bv maxT = .ok f)
    (y x : Int) (ch : Nat) :
    f y x ch = erodeSpecMin height width inStride channels inData
      kernelx_len.toNat kernely_len.toNat kernel bt bv maxT y x ch := by
  unfold Erode at hok
  split at hok
  · cases hok
    exact erodeAt_eq_erodeSpecMin height width inStride channels inData
      kernelx_len.toNat kernely_len.toNat kernel bt bv maxT y x ch
  · cases hok

/-- Witness for C1: a successful 2x2 single-channel call with a 3x3 null
(all-on) element under `REPLICATE`; the value written at `(0, 0, 0)` is the
spec's minimum over the on-tap set. -/
theorem erode_writes_min_over_on_taps_witness :
    erodeAt 2 2 2 1 (fun i => i) 3 3 none .BORDER_TYPE_REPLICATE 0 255 0 0 0 =
    erodeSpecMin 2 2 2 1 (fun i => i) 3 3 none .BORDER_TYPE_REPLICATE 0 255
      0 0 0 :=
  erode_writes_min_over_on_taps 1 2 2 2 3 3 2 (fun i => i) false false none
    .BORDER_TYPE_REPLICATE 0 255
    (fun y x ch => erodeAt 2 2 2 1 (fun i => i) 3 3 none
      .BORDER_TYPE_REPLICATE 0 255 y x ch)
    rfl 0 0 0

/-- Whether the structuring-element tap at `(dy, dx)` of output pixel
`(y, x)` resolves in bounds on both axes. -/
def tapInBounds (height width : Int) (kernelx_len kernely_len : Nat)
    (border_type : BorderType) (y x : Int) (dy dx : Nat) : Bool :=
  (match borderMap (y + -((kernely_len : Int) / 2) + dy) height border_type with
   | .inBounds _ => true
   | .useConstant => false) &&
  (match borderMap (x + -((kernelx_len : Int) / 2) + dx) width border_type with
   | .inBounds _ => true
   | .useConstant => false)

/-- The on taps of the structuring element whose coordinates resolve in
bounds on both axes for output pixel `(y, x)`. -/
def inBoundsOnTaps (height width : Int) (kernelx_len kernely_len : Nat)
    (kernel : Option (Nat → Bool)) (border_type : BorderType) (y x : Int) :
    Finset (Nat × Nat) :=
  (onTaps kernelx_len kernely_len kernel).filter
    (fun t => tapInBounds height width kernelx_len kernely_len border_type y x
      t.1 t.2 = true)

/-- A minimum fold never exceeds its starting accumulator. -/
lemma fold_min_le_base (s : Finset (Nat × Nat)) (g : Nat × Nat → Int)
    (b : Int) : Finset.fold min b g s ≤ b := by
  induction s using Finset.induction_on with
  | empty => simp
  | @insert a s ha ih =>
    rw [Finset.fold_insert ha]
    exact le_trans (min_le_right _ _) ih

/-- A minimum fold never exceeds the value of any folded element. -/
lemma fold_min_le_elem (s : Finset (Nat × Nat)) (g : Nat × Nat → Int)
    (b : Int) (t : Nat × Nat) (ht : t ∈ s) :
    Finset.fold min b g s ≤ g t := by
  induction s using Finset.induction_on with
  | empty => cases ht
  | @insert a s ha ih =>
    rw [Finset.fold_insert ha]
    rcases Finset.mem_insert.mp ht with h | h
    · rw [h]
      exact min_le_left _ _
    · exact le_trans (min_le_right _ _) (ih h)

/-- A lower bound of the base and of every folded value bounds the minimum
fold from below. -/
lemma le_fold_min (s : Finset (Nat × Nat)) (g : Nat × Nat → Int) (b c : Int)
    (hcb : c ≤ b) (hcg : ∀ t ∈ s, c ≤ g t) :
    c ≤ Finset.fold min b g s := by
  induction s using Finset.induction_on with
  | empty => simpa using hcb
  | @insert a s ha ih =>
    rw [Finset.fold_insert ha]
    exact le_min (hcg a (Finset.mem_insert_self a s))
      (ih fun t ht => hcg t (Finset.mem_insert_of_mem ht))

/-- Elements whose value equals the starting accumulator can be dropped from
a minimum fold. -/
lemma fold_min_filter_of_eq_base (s : Finset (Nat × Nat))
    (p : Nat × Nat → Bool) (g : Nat × Nat → Int) (b : Int)
    (h : ∀ t ∈ s, p t = false → g t = b) :
    Finset.fold min b g s =
    Finset.fold min b g (s.filter (fun t => p t = true)) := by
  induction s using Finset.induction_on with
  | empty => simp
  | @insert a s ha ih =>
    rw [Finset.fold_insert ha, Finset.filter_insert]
    by_cases hp : p a = true
    · rw [if_pos hp, Finset.fold_insert
        (fun hmem => ha (Finset.mem_filter.mp hmem).1)]
      rw [ih fun t ht hpt => h t (Finset.mem_insert_of_mem ht) hpt]
    · rw [if_neg hp]
      have hga : g a = b :=
        h a (Finset.mem_insert_self a s) (Bool.not_eq_true _ ▸ hp)
      rw [hga, ih fun t ht hpt => h t (Finset.mem_insert_of_mem ht) hpt]
      exact min_eq_right (fold_min_le_base _ _ _)

/-- When every folded value is at most the starting accumulator and the set
is nonempty, the minimum fold is the set's pointwise infimum. -/
lemma fold_min_eq_inf' (s : Finset (Nat × Nat)) (hs : s.Nonempty)
    (g : Nat × Nat → Int) (b : Int) (hb : ∀ t ∈ s, g t ≤ b) :
    Finset.fold min b g s = s.inf' hs g := by
  apply le_antisymm
  · exact (Finset.le_inf'_iff hs g).mpr fun t ht => fold_min_le_elem s g b t ht
  · obtain ⟨t0, ht0, heq⟩ := Finset.exists_mem_eq_inf' hs g
    apply le_fold_min
    · rw [heq]
      exact hb t0 ht0
    · intro t ht
      exact Finset.inf'_le g ht

/-- C9: `Erode`'s `border_value` defaults to `FLT_MAX`, the identity of the
minimum over representable float pixels; under the default `CONSTANT` policy
with the default border value, every output pixel whose window has at least
one in-bounds on tap is exactly the minimum over the in-bounds on taps alone:
out-of-bounds taps never lower the result. -/
theorem erode_default_border_value_neutral (height width inStride : Int)
    (channels : Nat) (inData : Int → Int) (kernelx_len kernely_len : Nat)
    (kernel : Option (Nat → Bool)) (y x : Int) (ch : Nat)
    (hdata : ∀ i, inData i ≤ FLT_MAX)
    (hne : (inBoundsOnTaps height width kernelx_len kernely_len kernel
      .BORDER_TYPE_CONSTANT y x).Nonempty) :
    erodeDefaultBorderType = .BORDER_TYPE_CONSTANT ∧
    erodeDefaultBorderValue = FLT_MAX ∧
    erodeAt height width inStride channels inData kernelx_len kernely_len
        kernel erodeDefaultBorderType erodeDefaultBorderValue FLT_MAX y x ch =
      (inBoundsOnTaps height width kernelx_len kernely_len kernel
        .BORDER_TYPE_CONSTANT y x).inf' hne
        (fun t => erodeTap height width inStride channels inData kernelx_len
          kernely_len .BORDER_TYPE_CONSTANT erodeDefaultBorderValue y x ch
          t.1 t.2) := by
  refine ⟨rfl, rfl, ?_⟩
  have hoob : ∀ t ∈ onTaps kernelx_len kernely_len kernel,
      tapInBounds height width kernelx_len kernely_len
        .BORDER_TYPE_CONSTANT y x t.1 t.2 = false →
      erodeTap height width inStride channels inData kernelx_len kernely_len
        .BORDER_TYPE_CONSTANT FLT_MAX y x ch t.1 t.2 = FLT_MAX := by
    intro t _ hfalse
    unfold tapInBounds at hfalse
    unfold erodeTap
    rcases hr : borderMap (y + -((kernely_len : Int) / 2) + t.1) height
        .BORDER_TYPE_CONSTANT with r | _
    · rcases hc : borderMap (x + -((kernelx_len : Int) / 2) + t.2) width
          .BORDER_TYPE_CONSTANT with c | _
      · rw [hr, hc] at hfalse
        simp at hfalse
      · rfl
    · rfl
  have hin : ∀ t : Nat × Nat,
      erodeTap height width inStride channels inData kernelx_len kernely_len
        .BORDER_TYPE_CONSTANT FLT_MAX y x ch t.1 t.2 ≤ FLT_MAX := by
    intro t
    unfold erodeTap
    rcases borderMap (y + -((kernely_len : Int) / 2) + t.1) height
        .BORDER_TYPE_CONSTANT with r | _
    · rcases borderMap (x + -((kernelx_len : Int) / 2) + t.2) width
          .BORDER_TYPE_CONSTANT with c | _
      · exact hdata _
      · exact le_refl _
    · exact le_refl _
  show erodeAt height width inStride channels inData kernelx_len kernely_len
      kernel .BORDER_TYPE_CONSTANT FLT_MAX FLT_MAX y x ch = _
  rw [erodeAt_eq_erodeSpecMin]
  unfold erodeSpecMin
  rw [fold_min_filter_of_eq_base _
    (fun t => tapInBounds height width kernelx_len kernely_len
      .BORDER_TYPE_CONSTANT y x t.1 t.2) _ _ hoob]
  exact fold_min_eq_inf' _ hne _ _ (fun t _ => hin t)

/-- Witness for C9: a 2x2 single-channel constant-5 image with a 3x3 null
(all-on) element under the defaults; the corner output equals 5, the minimum
over the four in-bounds taps alone. -/
theorem erode_default_border_value_neutral_witness :
    erodeAt 2 2 2 1 (fun _ => (5 : Int)) 3 3 none erodeDefaultBorderType
      erodeDefaultBorderValue FLT_MAX 0 0 0 = 5 := by
  have hdata : ∀ i : Int, (fun _ : Int => (5 : Int)) i ≤ FLT_MAX := by
    intro i
    norm_num [FLT_MAX]
  have hne : (inBoundsOnTaps 2 2 3 3 none .BORDER_TYPE_CONSTANT 0 0).Nonempty := by
    decide
  have h := (erode_default_border_value_neutral 2 2 2 1 (fun _ => (5 : Int))
    3 3 none 0 0 0 hdata hne).2.2
  rw [h]
  have hmem : ((1 : Nat), (1 : Nat)) ∈
      inBoundsOnTaps 2 2 3 3 none .BORDER_TYPE_CONSTANT 0 0 := by decide
  apply le_antisymm
  · exact le_trans (Finset.inf'_le _ hmem) (by decide)
  · exact Finset.le_inf' hne _ (by decide)

end PplCv
